import Mathlib

/-!
Verification of the RA.Aid memory and trajectory management core.

This development shallowly embeds the relevant pieces of the repository:

* the identifier allocator + in-memory keyed stores behind the memory tools
  (`emit_key_facts`, `delete_key_facts`, `emit_key_snippets`,
  `delete_key_snippets`, `emit_task`, `delete_tasks`, `swap_task_order`,
  `emit_related_files`);
* the key-snippets garbage-collection agent
  (`ra_aid/agents/key_snippets_gc_agent.py`: the `delete_key_snippets` tool
  and `run_key_snippets_gc_agent`);
* the trajectory repository (serialization of structured fields and the
  scoped-lifetime context variable).

Stores are modelled as association lists from integer ids to values; Python
exceptions are modelled with `Except`; the LLM agent is modelled as an
arbitrary list of delete-tool invocations.
-/

namespace RAAid

/-- Lookup in an association list keyed by `Nat` (first match), mirroring a
Python `dict` access. -/
def alLookup (m : List (Nat × α)) (i : Nat) : Option α :=
  match m.find? (fun p => p.1 == i) with
  | some p => some p.2
  | none => none

/-- Remove a key from an association list, mirroring `del d[i]` /
`dict.pop(i, None)`. -/
def alErase (m : List (Nat × α)) (i : Nat) : List (Nat × α) :=
  m.filter (fun p => ¬ p.1 = i)

/-- Overwrite the value at an existing key, keeping the entry order
(mirrors `d[i] = v` for a key already present). -/
def alSet (m : List (Nat × α)) (i : Nat) (v : α) : List (Nat × α) :=
  m.map (fun p => if p.1 = i then (p.1, v) else p)

/-- Key membership. -/
def alContains (m : List (Nat × α)) (i : Nat) : Bool :=
  (alLookup m i).isSome

/-! ### Identifier allocator + keyed store (spec §4.1)

Modelled from the spec: the source file `ra_aid/tools/memory.py` holding the
`_global_memory` keyed stores is not part of the given sources (only its
tests are), so the store is modelled from §4.1 of the specification:
`emit(value) -> id` assigns `id = counter; counter += 1`, inserts into the
mapping and returns the id; `delete(id) -> bool` removes the entry if
present, returns whether it existed, and never decrements the counter. -/

/-- An id-keyed store: a mapping from integer ids to values plus the
monotone id counter (`key_facts`/`key_fact_id_counter` and friends). -/
structure KeyedStore (α : Type) where
  entries : List (Nat × α)
  counter : Nat
  deriving Repr, DecidableEq

/-- The reset state of a keyed store (the test fixture sets the mapping to
empty and the counter to 0). -/
def KeyedStore.reset : KeyedStore α := ⟨[], 0⟩

/-- Modelled from the spec: `emit(value) -> id` assigns `id = counter;
counter += 1`, inserts into the mapping, returns the id. -/
def KeyedStore.emit (st : KeyedStore α) (v : α) : Nat × KeyedStore α :=
  (st.counter, ⟨st.entries ++ [(st.counter, v)], st.counter + 1⟩)

/-- Modelled from the spec: `delete(id) -> bool` removes if present, returns
whether it existed; never decrements the counter. -/
def KeyedStore.deleteId (st : KeyedStore α) (i : Nat) : Bool × KeyedStore α :=
  (alContains st.entries i, ⟨alErase st.entries i, st.counter⟩)

/-- Bulk delete: the per-id best-effort loop used by the delete tools
(`delete_key_facts`, `delete_tasks`, ...): each present id is removed, a
missing id is a no-op. -/
def KeyedStore.deleteIds (st : KeyedStore α) (ids : List Nat) : KeyedStore α :=
  ids.foldl (fun s i => (s.deleteId i).2) st

/-- One operation of a run against a single keyed store. -/
inductive StoreOp (α : Type) where
  | emit (v : α)
  | delete (ids : List Nat)
  deriving Repr, DecidableEq

/-- Apply one operation. -/
def KeyedStore.applyOp (st : KeyedStore α) : StoreOp α → KeyedStore α
  | .emit v => (st.emit v).2
  | .delete ids => st.deleteIds ids

/-- Run a sequence of operations. -/
def KeyedStore.runOps (st : KeyedStore α) (ops : List (StoreOp α)) : KeyedStore α :=
  ops.foldl KeyedStore.applyOp st

/-- The ids returned by the emits of a run, in order. -/
def KeyedStore.emittedIds (st : KeyedStore α) : List (StoreOp α) → List Nat
  | [] => []
  | .emit v :: ops => (st.emit v).1 :: (st.emit v).2.emittedIds ops
  | .delete ids :: ops => (st.deleteIds ids).emittedIds ops

/-! ### The memory tools (spec §4.1, §4.4)

Modelled from the spec: `ra_aid/tools/memory.py` is not among the given
sources (only `tests/ra_aid/tools/test_memory.py` is), so the tools are
modelled from §3, §4.1 and §4.4 of the specification: each tool is a pure
mutation over the `_global_memory` stores returning a short fixed status
string; snippet emission also registers the filepath into the Related-Files
set (idempotent union); bulk delete is per-id best-effort. -/

/-- One key snippet as stored by the memory tool (`emit_key_snippets`). -/
structure SnippetInfo where
  filepath : String
  line_number : Nat
  snippet : String
  description : Option String
  deriving Repr, DecidableEq

/-- The `_global_memory` state relevant to the claims: the three id-keyed
stores with their counters, the Related-Files set (kept as a
duplicate-free list) and the research-subtask sequence. -/
structure Memory where
  key_facts : KeyedStore String
  key_snippets : KeyedStore SnippetInfo
  tasks : KeyedStore String
  related_files : List String
  research_subtasks : List String
  deriving Repr, DecidableEq

/-- The reset state used by the test fixture: empty stores, counters 0. -/
def Memory.reset : Memory := ⟨.reset, .reset, .reset, [], []⟩

/-- Insert into the Related-Files set: idempotent union of one path. -/
def fileInsert (s : List String) (f : String) : List String :=
  if f ∈ s then s else s ++ [f]

/-- `emit_key_facts(facts)`: store each fact under the next id; returns
"Facts stored.". -/
def emit_key_facts (facts : List String) (m : Memory) : String × Memory :=
  ("Facts stored.",
    { m with key_facts := facts.foldl (fun st f => (st.emit f).2) m.key_facts })

/-- `delete_key_facts(fact_ids)`: per-id best-effort removal; returns
"Facts deleted." regardless. -/
def delete_key_facts (fact_ids : List Nat) (m : Memory) : String × Memory :=
  ("Facts deleted.", { m with key_facts := m.key_facts.deleteIds fact_ids })

/-- `emit_key_snippets(snippets)`: store each snippet under the next id and
register its filepath into Related-Files; returns "Snippets stored.". -/
def emit_key_snippets (snippets : List SnippetInfo) (m : Memory) : String × Memory :=
  ("Snippets stored.",
    snippets.foldl
      (fun mm s =>
        { mm with
          key_snippets := (mm.key_snippets.emit s).2
          related_files := fileInsert mm.related_files s.filepath })
      m)

/-- `delete_key_snippets(snippet_ids)` (the memory tool): per-id best-effort
removal, Related-Files untouched; returns "Snippets deleted.". -/
def delete_key_snippets (snippet_ids : List Nat) (m : Memory) : String × Memory :=
  ("Snippets deleted.", { m with key_snippets := m.key_snippets.deleteIds snippet_ids })

/-- `emit_task(task)`: store the task under the next id; returns
"Task #<id> stored.". -/
def emit_task (task : String) (m : Memory) : String × Memory :=
  let r := m.tasks.emit task
  ("Task #" ++ toString r.1 ++ " stored.", { m with tasks := r.2 })

/-- `delete_tasks(task_ids)`: per-id best-effort removal; returns
"Tasks deleted.". -/
def delete_tasks (task_ids : List Nat) (m : Memory) : String × Memory :=
  ("Tasks deleted.", { m with tasks := m.tasks.deleteIds task_ids })

/-- `swap_task_order(id1, id2)`: rejects absent ids with "Invalid task
ID(s)" and a self-swap with "Cannot swap task with itself"; otherwise
exchanges the two stored descriptions in place. -/
def swap_task_order (id1 id2 : Nat) (m : Memory) : String × Memory :=
  match alLookup m.tasks.entries id1, alLookup m.tasks.entries id2 with
  | some v1, some v2 =>
    if id1 = id2 then ("Cannot swap task with itself", m)
    else
      ("Tasks swapped.",
        { m with
          tasks :=
            ⟨alSet (alSet m.tasks.entries id1 v2) id2 v1, m.tasks.counter⟩ })
  | _, _ => ("Invalid task ID(s)", m)

/-- `emit_related_files(files)`: union the paths into Related-Files;
returns "Files noted.". -/
def emit_related_files (files : List String) (m : Memory) : String × Memory :=
  ("Files noted.", { m with related_files := files.foldl fileInsert m.related_files })

/-- `get_related_files()`. -/
def get_related_files (m : Memory) : List String := m.related_files

/-! ### Association-list lemmas -/

/-! ### Related-files machinery (sequences of snippet/file operations) -/

/-- One operation touching snippets or related files. -/
inductive FileOp where
  | emitSnips (l : List SnippetInfo)
  | emitFiles (l : List String)
  | delSnips (ids : List Nat)
  deriving Repr, DecidableEq

/-- Apply one operation to the memory. -/
def applyFileOp (m : Memory) : FileOp → Memory
  | FileOp.emitSnips l => (emit_key_snippets l m).2
  | FileOp.emitFiles l => (emit_related_files l m).2
  | FileOp.delSnips ids => (delete_key_snippets ids m).2

/-- Run a sequence of snippet/file operations. -/
def runFileOps (m : Memory) (ops : List FileOp) : Memory :=
  ops.foldl applyFileOp m

/-- All filepaths ever emitted by a sequence of operations (snippet
emissions contribute their filepaths, file emissions their paths). -/
def emittedPaths : List FileOp → List String
  | [] => []
  | FileOp.emitSnips l :: ops => l.map SnippetInfo.filepath ++ emittedPaths ops
  | FileOp.emitFiles l :: ops => l ++ emittedPaths ops
  | FileOp.delSnips _ :: ops => emittedPaths ops

/-! ### The key-snippets GC agent (`ra_aid/agents/key_snippets_gc_agent.py`)

Embedding notes.  The repository backing the agent (`KeySnippetRepository`)
is a table of snippets with integer primary keys; it is modelled as a list
of `KeySnippet` records (`get` finds by id, `delete` removes by id and
returns whether it existed).  `human_input_repository.get_recent(1)` may
raise: the call's outcome is passed in as an `Except` value (an `.error`
models a raised exception, which the Python code catches with
`except Exception`; an `.ok` carries the ids of the returned rows).  The
LLM agent run by `run_agent_with_retry` is modelled as an arbitrary list of
`delete_key_snippets` tool invocations, each carrying its own
`get_recent(1)` outcome and its list of snippet ids. -/

namespace GCAgent

/-- One row of the key-snippet table. -/
structure KeySnippet where
  id : Nat
  filepath : String
  line_number : Nat
  snippet : String
  description : Option String
  human_input_id : Option Nat
  deriving Repr, DecidableEq

/-- The key-snippet table (`key_snippet_repository`). -/
abbrev SnippetStore := List KeySnippet

/-- `key_snippet_repository.get(snippet_id)`. -/
def storeGet (store : SnippetStore) (i : Nat) : Option KeySnippet :=
  store.find? (fun s => s.id == i)

/-- `key_snippet_repository.delete(snippet_id)`: returns whether the row
existed together with the remaining table. -/
def storeDelete (store : SnippetStore) (i : Nat) : Bool × SnippetStore :=
  ((storeGet store i).isSome, store.filter (fun s => ¬ s.id = i))

/-- The `try: recent_inputs = human_input_repository.get_recent(1) ...`
block shared by the delete tool and the GC run: on an exception the
current human input id stays `None`; otherwise it is the id of the first
returned row, if any. -/
def currentHumanInputId (lookup : Except String (List Nat)) : Option Nat :=
  match lookup with
  | Except.error _ => none
  | Except.ok recent => recent.head?

/-- The protection test of the delete tool:
`current_human_input_id is not None and snippet.human_input_id == current_human_input_id`. -/
def isProtectedSnippet (current : Option Nat) (s : KeySnippet) : Bool :=
  match current with
  | some c => s.human_input_id == some c
  | none => false

/-- The loop state of the `delete_key_snippets` tool: the table plus the
four report lists the tool assembles (`results`, `protected_snippets`,
`not_found_snippets`, `failed_snippets`). -/
structure DeleteAcc where
  store : SnippetStore
  results : List (Nat × String)
  protected_snippets : List (Nat × String)
  not_found_snippets : List Nat
  failed_snippets : List Nat
  deriving Repr, DecidableEq

/-- One iteration of the `for snippet_id in snippet_ids` loop. -/
def deleteStep (current : Option Nat) (acc : DeleteAcc) (i : Nat) : DeleteAcc :=
  match storeGet acc.store i with
  | some s =>
      if isProtectedSnippet current s then
        { acc with protected_snippets := acc.protected_snippets ++ [(i, s.filepath)] }
      else
        let del := storeDelete acc.store i
        if del.1 then
          { acc with store := del.2, results := acc.results ++ [(i, s.filepath)] }
        else
          { acc with failed_snippets := acc.failed_snippets ++ [i] }
  | none => { acc with not_found_snippets := acc.not_found_snippets ++ [i] }

/-- The full outcome of one `delete_key_snippets` tool call: the table after
the call, the four report lists, and the returned string. -/
structure DeleteOutcome where
  store : SnippetStore
  results : List (Nat × String)
  protected_snippets : List (Nat × String)
  not_found_snippets : List Nat
  failed_snippets : List Nat
  ret : String
  deriving Repr, DecidableEq

/-- The `delete_key_snippets` tool of the GC agent.  `lookup` is the outcome
of its `human_input_repository.get_recent(1)` call. -/
def delete_key_snippets (lookup : Except String (List Nat))
    (snippet_ids : List Nat) (store : SnippetStore) : DeleteOutcome :=
  let current := currentHumanInputId lookup
  let acc := snippet_ids.foldl (deleteStep current) ⟨store, [], [], [], []⟩
  ⟨acc.store, acc.results, acc.protected_snippets, acc.not_found_snippets,
    acc.failed_snippets, "Snippets deleted."⟩

/-- The console report `run_key_snippets_gc_agent` ends with. -/
inductive GCReport where
  | noSnippets
  | allProtected (count : Nat)
  | cleaned (startCount endCount protectedCount : Nat)
  deriving Repr, DecidableEq

/-- The outcome of one GC run: the table afterwards, whether the LLM agent
was invoked (`run_agent_with_retry`), and the final report. -/
structure GCOutcome where
  store : SnippetStore
  llmInvoked : Bool
  report : GCReport
  deriving Repr, DecidableEq

/-- `run_key_snippets_gc_agent`.  `lookup` is the outcome of the run's own
`get_recent(1)` call; `agentCalls` are the delete-tool invocations the LLM
makes when the agent is run (each with the outcome of the tool's own
`get_recent(1)` call). -/
def run_key_snippets_gc_agent (lookup : Except String (List Nat))
    (agentCalls : List (Except String (List Nat) × List Nat))
    (store : SnippetStore) : GCOutcome :=
  let snippet_count := store.length
  if snippet_count > 0 then
    let current := currentHumanInputId lookup
    let eligible_snippets := store.filter (fun s => ¬ isProtectedSnippet current s)
    let protected_snippets := store.filter (fun s => isProtectedSnippet current s)
    if eligible_snippets.isEmpty then
      ⟨store, false, GCReport.allProtected protected_snippets.length⟩
    else
      let finalStore :=
        agentCalls.foldl (fun st call => (delete_key_snippets call.1 call.2 st).store) store
      ⟨finalStore, true,
        GCReport.cleaned snippet_count finalStore.length protected_snippets.length⟩
  else ⟨store, false, GCReport.noSnippets⟩

/-! Lemmas for the unprotected (`current_human_input_id is None`) path. -/

end GCAgent

/-! ### Trajectory repository: scoped lifetime (spec §4.2)

Modelled from the spec:
`ra_aid/database/repositories/trajectory_repository.py` is not among the
given sources (only its tests are), so the repository, its context-variable
slot (`trajectory_repo_var`) and the scoped manager are modelled from §4.2
and §7 of the specification: the manager enters by constructing the
repository and publishing it into a process-wide lookup slot and clears the
slot on exit; looking the repository up when none is published fails with a
clear "No TrajectoryRepository available" error rather than returning null;
re-entering while one is already published fails fast. -/

namespace TrajectoryRepo

/-- A trajectory repository handle, identified by the database connection
it was constructed around. -/
structure TrajectoryRepository where
  db : Nat
  deriving Repr, DecidableEq

/-- Construction requires a live connection ("Database connection is
required" otherwise). -/
def TrajectoryRepository.make (db : Option Nat) : Except String TrajectoryRepository :=
  match db with
  | none => Except.error "Database connection is required"
  | some d => Except.ok ⟨d⟩

/-- The process-wide lookup slot (`trajectory_repo_var`). -/
abbrev RepoSlot := Option TrajectoryRepository

/-- `get_trajectory_repository`: the published repository, or the lifecycle
error naming the missing repository. -/
def get_trajectory_repository (slot : RepoSlot) : Except String TrajectoryRepository :=
  match slot with
  | some repo => Except.ok repo
  | none =>
      Except.error
        "No TrajectoryRepository available. Ensure TrajectoryRepositoryManager is active."

/-- `TrajectoryRepositoryManager.__enter__`: construct the repository and
publish it; fail fast if one is already published. -/
def TrajectoryRepositoryManager.enter (db : Nat) (slot : RepoSlot) :
    Except String (TrajectoryRepository × RepoSlot) :=
  match slot with
  | some _ => Except.error "TrajectoryRepository already published in this context"
  | none => Except.ok (⟨db⟩, some ⟨db⟩)

/-- `TrajectoryRepositoryManager.__exit__`: clear the slot on every exit
path. -/
def TrajectoryRepositoryManager.exit (_slot : RepoSlot) : RepoSlot := none

end TrajectoryRepo

/-! ### Trajectory structured fields: serialization round trip (spec §4.2)

Modelled from the spec: the trajectory repository serializes structured
(JSON-shaped nested mapping/sequence/scalar) `tool_parameters`,
`tool_result` and `step_data` to the storage representation (a text column)
on `create`, and `get`/`get_parsed_trajectory` deserialize back to
structured values.  Scalars cover strings, booleans, null and exact
decimal numbers `mantissa × 10 ^ exponent` — integers and floating-point
scalars such as `0.5` alike; the character-level encoding below is a JSON
writer/reader pair over `List Char`. -/

namespace Trajectory

/-- A structured (JSON-shaped) value: nested mappings, sequences and
scalars, including booleans and null.  A number scalar is an exact decimal
`mantissa × 10 ^ exponent`, covering both integers (exponent 0) and
floating-point scalars such as `0.5 = 5 × 10 ^ (-1)` — every value a JSON
number token can denote, with no rounding.  Mapping keys and string
scalars are character lists. -/
inductive JsonValue where
  | null
  | bool (b : Bool)
  | num (mantissa : Int) (exponent : Int)
  | str (s : List Char)
  | arr (elems : List JsonValue)
  | obj (fields : List (List Char × JsonValue))

/-- The opening-brace character. -/
def lbrace : Char := '\x7b'

/-- The closing-brace character. -/
def rbrace : Char := '\x7d'

mutual

/-- Node count of a structured value (used as parser fuel bound). -/
def jsize : JsonValue → Nat
  | JsonValue.null => 1
  | JsonValue.bool _ => 1
  | JsonValue.num _ _ => 1
  | JsonValue.str _ => 1
  | JsonValue.arr elems => 1 + sizeElems elems
  | JsonValue.obj fields => 1 + sizeFields fields

/-- Fuel cost of a sequence tail. -/
def sizeElems : List JsonValue → Nat
  | [] => 0
  | v :: vs => jsize v + 1 + sizeElems vs

/-- Fuel cost of a mapping tail. -/
def sizeFields : List (List Char × JsonValue) → Nat
  | [] => 0
  | (_, v) :: kvs => jsize v + 1 + sizeFields kvs

end

/-- Escape one character of a string scalar. -/
def escapeChar (c : Char) : List Char :=
  if c = '\\' then ['\\', '\\']
  else if c = '"' then ['\\', '"']
  else [c]

/-- Escape a string scalar. -/
def escapeString : List Char → List Char
  | [] => []
  | c :: cs => escapeChar c ++ escapeString cs

/-- The decimal digit character for `d`. -/
def digitChar (d : Nat) : Char := Char.ofNat (48 + d)

/-- Decimal digits, fuel-indexed (structural) worker. -/
def natDigitsAux : Nat → Nat → List Char
  | 0, _ => []
  | Nat.succ fuel, n =>
      if n < 10 then [digitChar n]
      else natDigitsAux fuel (n / 10) ++ [digitChar (n % 10)]

/-- Decimal digits of a natural number, most significant first. -/
def natDigits (n : Nat) : List Char := natDigitsAux (n + 1) n

/-- Decimal representation of an integer. -/
def intDigits (n : Int) : List Char :=
  if n < 0 then '-' :: natDigits n.natAbs else natDigits n.natAbs

/-- The exponent suffix of a decimal scalar: empty when the exponent is 0
(an integer prints as a plain integer token), otherwise `e` followed by
the exponent. -/
def expSuffix (e : Int) : List Char :=
  if e = 0 then [] else 'e' :: intDigits e

mutual

/-- Serialize a structured value to the storage representation. -/
def printJson : JsonValue → List Char
  | JsonValue.null => ['n', 'u', 'l', 'l']
  | JsonValue.bool true => ['t', 'r', 'u', 'e']
  | JsonValue.bool false => ['f', 'a', 'l', 's', 'e']
  | JsonValue.num n e => intDigits n ++ expSuffix e
  | JsonValue.str s => '"' :: escapeString s ++ ['"']
  | JsonValue.arr [] => ['[', ']']
  | JsonValue.arr (v :: vs) => '[' :: printJson v ++ printElems vs ++ [']']
  | JsonValue.obj [] => [lbrace, rbrace]
  | JsonValue.obj ((k, v) :: kvs) =>
      lbrace :: '"' :: escapeString k ++ ['"'] ++ ':' :: printJson v ++
        printFields kvs ++ [rbrace]

/-- Serialize the tail of a sequence (each element preceded by a comma). -/
def printElems : List JsonValue → List Char
  | [] => []
  | v :: vs => ',' :: printJson v ++ printElems vs

/-- Serialize the tail of a mapping (each pair preceded by a comma). -/
def printFields : List (List Char × JsonValue) → List Char
  | [] => []
  | (k, v) :: kvs =>
      ',' :: '"' :: escapeString k ++ ['"'] ++ ':' :: printJson v ++ printFields kvs

end

/-- Read a string scalar body up to its closing quote, undoing escapes.
The `Bool` is the escape mode: `true` right after a backslash. -/
def parseStringAux : Bool → List Char → Option (List Char × List Char)
  | _, [] => none
  | true, e :: cs2 =>
      if e = '\\' ∨ e = '"' then
        match parseStringAux false cs2 with
        | some (s, rest) => some (e :: s, rest)
        | none => none
      else none
  | false, c :: cs =>
      if c = '"' then some ([], cs)
      else if c = '\\' then parseStringAux true cs
      else
        match parseStringAux false cs with
        | some (s, rest) => some (c :: s, rest)
        | none => none

/-- Read a string scalar body up to its closing quote, undoing escapes. -/
def parseStringBody (cs : List Char) : Option (List Char × List Char) :=
  parseStringAux false cs

/-- Consume decimal digits, accumulating their value. -/
def parseDigitsAux : List Char → Nat → Nat × List Char
  | [], acc => (acc, [])
  | c :: cs, acc =>
      if c.isDigit then parseDigitsAux cs (acc * 10 + (c.toNat - 48))
      else (acc, c :: cs)

/-- Read a natural number (at least one digit). -/
def parseNat : List Char → Option (Nat × List Char)
  | [] => none
  | c :: cs => if c.isDigit then some (parseDigitsAux cs (c.toNat - 48)) else none

/-- Read the optional exponent part of a number token: `e` followed by an
optionally negative integer.  Returns `none` when no exponent follows. -/
def parseExpOpt : List Char → Option (Int × List Char)
  | [] => none
  | c :: cs =>
      if c = 'e' then
        match cs with
        | [] => none
        | d :: cs2 =>
            if d = '-' then
              match parseNat cs2 with
              | some (n, rest) => some (-(n : Int), rest)
              | none => none
            else
              match parseNat (d :: cs2) with
              | some (n, rest) => some ((n : Int), rest)
              | none => none
      else none

mutual

/-- Deserialize one structured value (fuel-indexed recursive descent). -/
def parseValue : Nat → List Char → Option (JsonValue × List Char)
  | 0, _ => none
  | Nat.succ _, [] => none
  | Nat.succ fuel, c :: cs =>
      if c = 'n' then
        match cs with
        | 'u' :: 'l' :: 'l' :: rest => some (JsonValue.null, rest)
        | _ => none
      else if c = 't' then
        match cs with
        | 'r' :: 'u' :: 'e' :: rest => some (JsonValue.bool true, rest)
        | _ => none
      else if c = 'f' then
        match cs with
        | 'a' :: 'l' :: 's' :: 'e' :: rest => some (JsonValue.bool false, rest)
        | _ => none
      else if c = '"' then
        match parseStringBody cs with
        | some (s, rest) => some (JsonValue.str s, rest)
        | none => none
      else if c = '[' then
        if cs.head? = some ']' then some (JsonValue.arr [], cs.tail)
        else
          match parseElems fuel cs with
          | some (vs, rest) => some (JsonValue.arr vs, rest)
          | none => none
      else if c = lbrace then
        if cs.head? = some rbrace then some (JsonValue.obj [], cs.tail)
        else
          match parseFields fuel cs with
          | some (kvs, rest) => some (JsonValue.obj kvs, rest)
          | none => none
      else if c = '-' then
        match parseNat cs with
        | some (n, rest) =>
            match parseExpOpt rest with
            | some (e, rest2) => some (JsonValue.num (-(n : Int)) e, rest2)
            | none => some (JsonValue.num (-(n : Int)) 0, rest)
        | none => none
      else if c.isDigit then
        match parseNat (c :: cs) with
        | some (n, rest) =>
            match parseExpOpt rest with
            | some (e, rest2) => some (JsonValue.num ((n : Nat) : Int) e, rest2)
            | none => some (JsonValue.num ((n : Nat) : Int) 0, rest)
        | none => none
      else none

/-- Deserialize the elements of a non-empty sequence up to `]`. -/
def parseElems : Nat → List Char → Option (List JsonValue × List Char)
  | 0, _ => none
  | Nat.succ fuel, input =>
      match parseValue fuel input with
      | some (v, rest) =>
          match rest with
          | [] => none
          | d :: rest2 =>
              if d = ',' then
                match parseElems fuel rest2 with
                | some (vs, rest3) => some (v :: vs, rest3)
                | none => none
              else if d = ']' then some ([v], rest2)
              else none
      | none => none

/-- Deserialize the pairs of a non-empty mapping up to the closing brace. -/
def parseFields : Nat → List Char → Option (List (List Char × JsonValue) × List Char)
  | 0, _ => none
  | Nat.succ fuel, input =>
      match input with
      | '"' :: cs =>
          match parseStringBody cs with
          | some (k, rest) =>
              match rest with
              | ':' :: rest2 =>
                  match parseValue fuel rest2 with
                  | some (v, rest3) =>
                      match rest3 with
                      | [] => none
                      | d :: rest4 =>
                          if d = ',' then
                            match parseFields fuel rest4 with
                            | some (kvs, rest5) => some ((k, v) :: kvs, rest5)
                            | none => none
                          else if d = rbrace then some ([(k, v)], rest4)
                          else none
                  | none => none
              | _ => none
          | none => none
      | _ => none

end

/-- Serialize to the storage representation (`json.dumps`). -/
def dumps (v : JsonValue) : List Char := printJson v

/-- Deserialize from the storage representation (`json.loads`): the parse
must consume the whole text. -/
def loads (input : List Char) : Option JsonValue :=
  match parseValue (input.length + 1) input with
  | some (v, []) => some v
  | _ => none

/-! #### Digit lemmas -/

/-- Value accumulated by consuming a digit list. -/
def digitsVal (cs : List Char) (acc : Nat) : Nat :=
  cs.foldl (fun a c => a * 10 + (c.toNat - 48)) acc

/-! #### String-escape round trip and head lemmas -/

/-- The tail context cannot continue a number token: its head (if any) is
neither a digit nor the exponent marker `e`. -/
def numStopHead (rest : List Char) : Prop :=
  ∀ c, rest.head? = some c → c.isDigit = false ∧ c ≠ 'e'

/-! #### Round trip: parsing a serialized value returns it exactly -/

/-! #### Fuel bound: the serialized text is at least as long as the node count -/

/-! #### The trajectory repository over serialized structured fields

Modelled from the spec: one stored row keeps the structured fields in their
storage representation; `create` serializes, `get`/`get_parsed_trajectory`
deserialize back into the returned model. -/

/-- One row of the trajectory table (structured fields serialized). -/
structure TrajectoryRow where
  id : Nat
  human_input_id : Option Nat
  tool_name : String
  tool_parameters : Option (List Char)
  tool_result : Option (List Char)
  step_data : Option (List Char)
  record_type : Option String
  tokens : Option Nat
  is_error : Bool

/-- The parsed record returned to callers (structured fields deserialized). -/
structure TrajectoryModel where
  id : Nat
  human_input_id : Option Nat
  tool_name : String
  tool_parameters : Option JsonValue
  tool_result : Option JsonValue
  step_data : Option JsonValue
  record_type : Option String
  tokens : Option Nat
  is_error : Bool

/-- The trajectory table: rows plus the primary-key allocator. -/
structure TrajectoryTable where
  rows : List TrajectoryRow
  next_id : Nat

/-- Deserialize a row into the model handed back to callers. -/
def rowToModel (row : TrajectoryRow) : TrajectoryModel :=
  ⟨row.id, row.human_input_id, row.tool_name, row.tool_parameters.bind loads,
    row.tool_result.bind loads, row.step_data.bind loads, row.record_type,
    row.tokens, row.is_error⟩

/-- `TrajectoryRepository.create`: serialize the structured fields, insert
the row, return the created record as a parsed model. -/
def TrajectoryRepository.create (tbl : TrajectoryTable) (tool_name : String)
    (tool_parameters tool_result step_data : Option JsonValue)
    (record_type : Option String) (human_input_id : Option Nat)
    (tokens : Option Nat) (is_error : Bool) : TrajectoryModel × TrajectoryTable :=
  let row : TrajectoryRow :=
    ⟨tbl.next_id, human_input_id, tool_name, tool_parameters.map dumps,
      tool_result.map dumps, step_data.map dumps, record_type, tokens, is_error⟩
  (rowToModel row, ⟨tbl.rows ++ [row], tbl.next_id + 1⟩)

/-- `TrajectoryRepository.get`: find the row by id and deserialize it. -/
def TrajectoryRepository.get (tbl : TrajectoryTable) (i : Nat) : Option TrajectoryModel :=
  match tbl.rows.find? (fun r => r.id == i) with
  | some row => some (rowToModel row)
  | none => none

/-- `TrajectoryRepository.get_parsed_trajectory`: same lookup and
deserialization as `get`. -/
def TrajectoryRepository.get_parsed_trajectory (tbl : TrajectoryTable) (i : Nat) :
    Option TrajectoryModel :=
  TrajectoryRepository.get tbl i

end Trajectory

/-! ### Demonstration values used by the witnesses -/

/-- A snippet tied to human input 5. -/
def demoSnippet : GCAgent.KeySnippet :=
  ⟨0, "file1.py", 10, "def func1(): pass", some "First function", some 5⟩

/-- A snippet tied to human input 4. -/
def demoSnippet2 : GCAgent.KeySnippet :=
  ⟨1, "file2.py", 20, "def func2(): pass", none, some 4⟩

/-- A memory with three tasks (ids 0, 1, 2). -/
def demoMemory : Memory :=
  { Memory.reset with tasks := ⟨[(0, "Task 1"), (1, "Task 2"), (2, "Task 3")], 3⟩ }

/-- A memory whose Related-Files set already holds `a.py`. -/
def demoMemoryFiles : Memory :=
  { Memory.reset with related_files := ["a.py"] }

/-- A snippet record of the memory tool referring to `a.py`. -/
def demoSnippetInfo : SnippetInfo := ⟨"a.py", 1, "x = 1", none⟩

/-! ### The claims -/

namespace Trajectory

/-- Concrete structured fields used by the C3 witness. -/
def demoParams : Option JsonValue :=
  some (JsonValue.obj [(['a'], JsonValue.bool true), (['b'], JsonValue.null)])

/-- Concrete structured result used by the C3 witness. -/
def demoResult : Option JsonValue :=
  some (JsonValue.arr [JsonValue.num (-3) 0, JsonValue.num 1070 0,
    JsonValue.num 5 (-1), JsonValue.str ['h', '"']])

/-- Concrete structured step data used by the C3 witness. -/
def demoStep : Option JsonValue :=
  some (JsonValue.obj [(['k'], JsonValue.arr [JsonValue.obj [], JsonValue.bool false])])

/-- The record created by the C3 witness and the table it leaves behind. -/
def demoCreated : TrajectoryModel × TrajectoryTable :=
  TrajectoryRepository.create ⟨[], 0⟩ "ripgrep_search" demoParams demoResult demoStep
    (some "tool_execution") (some 7) (some 100) false

end Trajectory

end RAAid

namespace RAAid

theorem KeyedStore.deleteIds_counter (st : KeyedStore α) (ids : List Nat) :
    (st.deleteIds ids).counter = st.counter := by
  induction ids generalizing st with
  | nil => rfl
  | cons i ids ih => simpa [KeyedStore.deleteIds, KeyedStore.deleteId] using ih _

theorem KeyedStore.applyOp_counter_le (st : KeyedStore α) (op : StoreOp α) :
    st.counter ≤ (st.applyOp op).counter := by
  cases op with
  | emit v => simp [KeyedStore.applyOp, KeyedStore.emit]
  | delete ids => simp [KeyedStore.applyOp, KeyedStore.deleteIds_counter]

theorem KeyedStore.runOps_counter_le (st : KeyedStore α) (ops : List (StoreOp α)) :
    st.counter ≤ (st.runOps ops).counter := by
  induction ops generalizing st with
  | nil => exact Nat.le_refl _
  | cons op ops ih =>
      exact Nat.le_trans (st.applyOp_counter_le op) (ih (st.applyOp op))

theorem KeyedStore.emittedIds_lower_bound (st : KeyedStore α)
    (ops : List (StoreOp α)) :
    ∀ i ∈ st.emittedIds ops, st.counter ≤ i := by
  induction ops generalizing st with
  | nil => intro i h; simp [KeyedStore.emittedIds] at h
  | cons op ops ih =>
      intro i h
      cases op with
      | emit v =>
          simp only [KeyedStore.emittedIds, List.mem_cons] at h
          rcases h with h | h
          · exact h ▸ Nat.le_refl _
          · have := ih (st.emit v).2 i h
            simpa [KeyedStore.emit] using Nat.le_trans (Nat.le_succ _) this
      | delete ids =>
          simp only [KeyedStore.emittedIds] at h
          have := ih (st.deleteIds ids) i h
          simpa [KeyedStore.deleteIds_counter] using this

theorem KeyedStore.emittedIds_nodup (st : KeyedStore α) (ops : List (StoreOp α)) :
    (st.emittedIds ops).Nodup := by
  induction ops generalizing st with
  | nil => simp [KeyedStore.emittedIds]
  | cons op ops ih =>
      cases op with
      | emit v =>
          refine List.nodup_cons.mpr ⟨?_, ih (st.emit v).2⟩
          intro hmem
          have := KeyedStore.emittedIds_lower_bound (st.emit v).2 ops _ hmem
          simp [KeyedStore.emit] at this
      | delete ids => exact ih (st.deleteIds ids)

theorem alLookup_nil (j : Nat) : alLookup ([] : List (Nat × α)) j = none := rfl

theorem alLookup_erase (m : List (Nat × α)) (i j : Nat) :
    alLookup (alErase m i) j = if j = i then none else alLookup m j := by
  induction m with
  | nil => cases Decidable.em (j = i) <;> simp [alLookup, alErase]
  | cons p rest ih =>
      obtain ⟨k, v⟩ := p
      by_cases hk : k = i
      · subst hk
        by_cases hj : j = k
        · subst hj
          simpa [alLookup, alErase, List.filter_cons] using ih
        · simpa [alLookup, alErase, List.filter_cons, List.find?_cons,
            Ne.symm hj, hj] using ih
      · by_cases hkj : k = j
        · subst hkj
          simp [alLookup, alErase, List.filter_cons, List.find?_cons, hk]
        · by_cases hj : j = i
          · subst hj
            simpa [alLookup, alErase, List.filter_cons, List.find?_cons,
              hk, hkj] using ih
          · simpa [alLookup, alErase, List.filter_cons, List.find?_cons,
              hk, hkj, hj] using ih

theorem KeyedStore.deleteIds_cons (st : KeyedStore α) (i : Nat) (rest : List Nat) :
    st.deleteIds (i :: rest) = ((st.deleteId i).2).deleteIds rest := rfl

theorem KeyedStore.deleteIds_lookup (st : KeyedStore α) (ids : List Nat) (j : Nat) :
    alLookup (st.deleteIds ids).entries j =
      if j ∈ ids then none else alLookup st.entries j := by
  induction ids generalizing st with
  | nil => simp [KeyedStore.deleteIds]
  | cons i rest ih =>
      rw [KeyedStore.deleteIds_cons]
      rw [ih]
      by_cases hrest : j ∈ rest
      · simp [hrest]
      · by_cases hji : j = i
        · subst hji
          simp [hrest, KeyedStore.deleteId, alLookup_erase]
        · simp [hrest, hji, KeyedStore.deleteId, alLookup_erase]

theorem alLookup_set_self (m : List (Nat × α)) (i : Nat) (v w : α)
    (h : alLookup m i = some w) :
    alLookup (alSet m i v) i = some v := by
  induction m with
  | nil => simp [alLookup] at h
  | cons p rest ih =>
      obtain ⟨k, u⟩ := p
      by_cases hk : k = i
      · subst hk
        simp [alLookup, alSet, List.find?_cons]
      · have h' : alLookup rest i = some w := by
          simpa [alLookup, List.find?_cons, hk] using h
        simpa [alLookup, alSet, List.find?_cons, hk] using ih h'

theorem alLookup_set_other (m : List (Nat × α)) (i j : Nat) (v : α)
    (h : j ≠ i) :
    alLookup (alSet m i v) j = alLookup m j := by
  induction m with
  | nil => simp [alLookup, alSet]
  | cons p rest ih =>
      obtain ⟨k, u⟩ := p
      by_cases hk : k = i
      · subst hk
        have hkj : ¬ k = j := fun hh => h hh.symm
        simpa [alLookup, alSet, List.find?_cons, hkj] using ih
      · by_cases hkj : k = j
        · subst hkj
          simp [alLookup, alSet, List.find?_cons, hk]
        · simpa [alLookup, alSet, List.find?_cons, hk, hkj] using ih

theorem mem_fileInsert (s : List String) (f g : String) (h : f ∈ s ∨ f = g) :
    f ∈ fileInsert s g := by
  rcases h with h | h
  · by_cases hg : g ∈ s <;> simp [fileInsert, hg, h]
  · subst h
    by_cases hg : f ∈ s <;> simp [fileInsert, hg]

theorem mem_foldl_fileInsert (files : List String) (s : List String) (f : String)
    (h : f ∈ s ∨ f ∈ files) : f ∈ files.foldl fileInsert s := by
  induction files generalizing s with
  | nil => simpa using h
  | cons g rest ih =>
      have hstep : f ∈ fileInsert s g ∨ f ∈ rest := by
        rcases h with h | h
        · exact Or.inl (mem_fileInsert s f g (Or.inl h))
        · rcases List.mem_cons.mp h with h | h
          · exact Or.inl (mem_fileInsert s f g (Or.inr h))
          · exact Or.inr h
      simpa [List.foldl_cons] using ih (fileInsert s g) hstep

theorem emit_key_snippets_related (l : List SnippetInfo) (m : Memory) (f : String)
    (h : f ∈ m.related_files ∨ f ∈ l.map SnippetInfo.filepath) :
    f ∈ (emit_key_snippets l m).2.related_files := by
  induction l generalizing m with
  | nil => simpa [emit_key_snippets] using h
  | cons s rest ih =>
      have hstep :
          f ∈ (fileInsert m.related_files s.filepath) ∨
            f ∈ rest.map SnippetInfo.filepath := by
        rcases h with h | h
        · exact Or.inl (mem_fileInsert _ f _ (Or.inl h))
        · simp only [List.map_cons, List.mem_cons] at h
          rcases h with h | h
          · exact Or.inl (mem_fileInsert _ f _ (Or.inr h))
          · exact Or.inr h
      simpa [emit_key_snippets, List.foldl_cons] using
        ih { m with
              key_snippets := (m.key_snippets.emit s).2
              related_files := fileInsert m.related_files s.filepath } hstep

theorem runFileOps_related_superset (ops : List FileOp) (m : Memory) (f : String)
    (h : f ∈ m.related_files ∨ f ∈ emittedPaths ops) :
    f ∈ (runFileOps m ops).related_files := by
  induction ops generalizing m with
  | nil => simpa [runFileOps, emittedPaths] using h
  | cons op rest ih =>
      have hstep : f ∈ (applyFileOp m op).related_files ∨ f ∈ emittedPaths rest := by
        cases op with
        | emitSnips l =>
            rcases h with h | h
            · exact Or.inl (emit_key_snippets_related l m f (Or.inl h))
            · simp only [emittedPaths, List.mem_append] at h
              rcases h with h | h
              · exact Or.inl (emit_key_snippets_related l m f (Or.inr h))
              · exact Or.inr h
        | emitFiles l =>
            rcases h with h | h
            · exact Or.inl (mem_foldl_fileInsert l m.related_files f (Or.inl h))
            · simp only [emittedPaths, List.mem_append] at h
              rcases h with h | h
              · exact Or.inl (mem_foldl_fileInsert l m.related_files f (Or.inr h))
              · exact Or.inr h
        | delSnips ids =>
            rcases h with h | h
            · exact Or.inl (by simpa [applyFileOp, delete_key_snippets] using h)
            · exact Or.inr (by simpa [emittedPaths] using h)
      simpa [runFileOps, List.foldl_cons] using ih (applyFileOp m op) hstep

namespace GCAgent

theorem storeGet_mem_nodup (store : SnippetStore) (s : KeySnippet)
    (hnd : (store.map KeySnippet.id).Nodup) (hmem : s ∈ store) :
    storeGet store s.id = some s := by
  induction store with
  | nil => simp at hmem
  | cons t rest ih =>
      have hnd' : t.id ∉ rest.map KeySnippet.id ∧ (rest.map KeySnippet.id).Nodup := by
        simpa [List.nodup_cons] using hnd
      rcases List.mem_cons.mp hmem with h | h
      · subst h
        simp [storeGet, List.find?_cons]
      · by_cases hid : t.id = s.id
        · exact absurd (hid ▸ List.mem_map_of_mem KeySnippet.id h) hnd'.1
        · simpa [storeGet, List.find?_cons, hid] using ih hnd'.2 h

theorem deleteStep_store_sublist (cur : Option Nat) (acc : DeleteAcc) (i : Nat) :
    List.Sublist (deleteStep cur acc i).store acc.store := by
  unfold deleteStep
  cases hg : storeGet acc.store i with
  | none => exact List.Sublist.refl _
  | some s =>
      by_cases hp : isProtectedSnippet cur s
      · simp only [hp, if_true]
        exact List.Sublist.refl _
      · have hdel : (storeDelete acc.store i).1 = true := by
          simp [storeDelete, hg]
        simp only [hp, if_false, Bool.false_eq_true, hdel, if_true]
        exact List.filter_sublist _

theorem deleteStep_protected_mono (cur : Option Nat) (acc : DeleteAcc) (i : Nat)
    (x : Nat × String) (hx : x ∈ acc.protected_snippets) :
    x ∈ (deleteStep cur acc i).protected_snippets := by
  unfold deleteStep
  cases hg : storeGet acc.store i with
  | none => exact hx
  | some s =>
      by_cases hp : isProtectedSnippet cur s
      · simp only [hp, if_true]
        exact List.mem_append.mpr (Or.inl hx)
      · by_cases hd : (storeDelete acc.store i).1 <;>
          simp only [hp, hd, if_true, if_false, Bool.false_eq_true] <;> exact hx

theorem deleteStep_protected_step (c : Nat) (s : KeySnippet) (acc : DeleteAcc) (i : Nat)
    (hs : s.human_input_id = some c)
    (h1 : s ∈ acc.store)
    (h2 : (acc.store.map KeySnippet.id).Nodup)
    (h3 : s.id ∉ acc.not_found_snippets) :
    s ∈ (deleteStep (some c) acc i).store ∧
    ((deleteStep (some c) acc i).store.map KeySnippet.id).Nodup ∧
    s.id ∉ (deleteStep (some c) acc i).not_found_snippets ∧
    (i = s.id → (s.id, s.filepath) ∈ (deleteStep (some c) acc i).protected_snippets) := by
  have hgets : storeGet acc.store s.id = some s := storeGet_mem_nodup acc.store s h2 h1
  have hprot : isProtectedSnippet (some c) s = true := by
    simp [isProtectedSnippet, hs]
  have hnodup' : ((deleteStep (some c) acc i).store.map KeySnippet.id).Nodup :=
    List.Nodup.sublist (List.Sublist.map _ (deleteStep_store_sublist (some c) acc i)) h2
  refine ⟨?_, hnodup', ?_, ?_⟩
  · unfold deleteStep
    cases hg : storeGet acc.store i with
    | none => exact h1
    | some t =>
        by_cases hp : isProtectedSnippet (some c) t
        · simp only [hp, if_true]
          exact h1
        · have hne : ¬ s.id = i := by
            intro hid
            rw [hid] at hgets
            rw [hg] at hgets
            injection hgets with ht
            exact hp (ht ▸ hprot)
          have hdel : (storeDelete acc.store i).1 = true := by
            simp [storeDelete, hg]
          simp only [hp, if_false, Bool.false_eq_true, hdel, if_true]
          exact List.mem_filter.mpr ⟨h1, by simpa using hne⟩
  · unfold deleteStep
    cases hg : storeGet acc.store i with
    | none =>
        have hne : ¬ s.id = i := by
          intro hid
          rw [hid] at hgets
          rw [hg] at hgets
          exact Option.noConfusion hgets
        simp only [List.mem_append, List.mem_singleton]
        intro hcon
        rcases hcon with hcon | hcon
        · exact h3 hcon
        · exact hne hcon
    | some t =>
        by_cases hp : isProtectedSnippet (some c) t
        · simp only [hp, if_true]
          exact h3
        · by_cases hd : (storeDelete acc.store i).1 <;>
            simp only [hp, hd, if_true, if_false, Bool.false_eq_true] <;> exact h3
  · intro hid
    subst hid
    unfold deleteStep
    rw [hgets]
    simp only [hprot, if_true]
    exact List.mem_append.mpr (Or.inr (List.mem_singleton.mpr rfl))

theorem deleteLoop_protects (c : Nat) (s : KeySnippet)
    (hs : s.human_input_id = some c) :
    ∀ (ids : List Nat) (acc : DeleteAcc),
      s ∈ acc.store →
      (acc.store.map KeySnippet.id).Nodup →
      s.id ∉ acc.not_found_snippets →
      s ∈ (ids.foldl (deleteStep (some c)) acc).store ∧
      s.id ∉ (ids.foldl (deleteStep (some c)) acc).not_found_snippets ∧
      (∀ x ∈ acc.protected_snippets,
        x ∈ (ids.foldl (deleteStep (some c)) acc).protected_snippets) ∧
      (s.id ∈ ids →
        (s.id, s.filepath) ∈ (ids.foldl (deleteStep (some c)) acc).protected_snippets) := by
  intro ids
  induction ids with
  | nil =>
      intro acc h1 _ h3
      exact ⟨h1, h3, fun x hx => hx, by simp⟩
  | cons i rest ih =>
      intro acc h1 h2 h3
      obtain ⟨s1, s2, s3, s5⟩ := deleteStep_protected_step c s acc i hs h1 h2 h3
      obtain ⟨r1, r3, r4, r5⟩ := ih (deleteStep (some c) acc i) s1 s2 s3
      refine ⟨r1, r3, ?_, ?_⟩
      · intro x hx
        exact r4 x (deleteStep_protected_mono (some c) acc i x hx)
      · intro hmem
        rcases List.mem_cons.mp hmem with h | h
        · exact r4 _ (s5 h.symm)
        · exact r5 h

theorem deleteStep_none_store (acc : DeleteAcc) (i : Nat) :
    (deleteStep none acc i).store = acc.store.filter (fun s => ¬ s.id = i) := by
  unfold deleteStep
  cases hg : storeGet acc.store i with
  | none =>
      have hall : ∀ s ∈ acc.store, ¬ s.id = i := by
        intro s hsmem
        have := List.find?_eq_none.mp hg s hsmem
        simpa using this
      exact (List.filter_eq_self.mpr (fun a ha => by simpa using hall a ha)).symm
  | some t =>
      have hp : isProtectedSnippet none t = false := rfl
      simp [hp, storeDelete, hg]

theorem deleteStep_none_protected (acc : DeleteAcc) (i : Nat) :
    (deleteStep none acc i).protected_snippets = acc.protected_snippets := by
  unfold deleteStep
  cases hg : storeGet acc.store i with
  | none => rfl
  | some t =>
      have hp : isProtectedSnippet none t = false := rfl
      by_cases hd : (storeDelete acc.store i).1
      · simp [hp, hd]
      · simp [hp, hd]

theorem deleteLoop_none_mem (ids : List Nat) :
    ∀ (acc : DeleteAcc) (s : KeySnippet),
      (s ∈ (ids.foldl (deleteStep none) acc).store ↔ (s ∈ acc.store ∧ s.id ∉ ids)) := by
  induction ids with
  | nil => intro acc s; simp
  | cons i rest ih =>
      intro acc s
      rw [List.foldl_cons, ih]
      constructor
      · rintro ⟨hmem, hrest⟩
        rw [deleteStep_none_store] at hmem
        have := List.mem_filter.mp hmem
        refine ⟨this.1, ?_⟩
        have hne : ¬ s.id = i := by simpa using this.2
        intro hcon
        rcases List.mem_cons.mp hcon with h | h
        · exact hne h
        · exact hrest h
      · rintro ⟨hmem, hni⟩
        refine ⟨?_, fun h => hni (List.mem_cons.mpr (Or.inr h))⟩
        rw [deleteStep_none_store]
        exact List.mem_filter.mpr
          ⟨hmem, by simpa using fun h => hni (List.mem_cons.mpr (Or.inl h))⟩

theorem deleteLoop_none_protected (ids : List Nat) :
    ∀ acc : DeleteAcc,
      (ids.foldl (deleteStep none) acc).protected_snippets = acc.protected_snippets := by
  induction ids with
  | nil => intro acc; rfl
  | cons i rest ih =>
      intro acc
      rw [List.foldl_cons, ih, deleteStep_none_protected]

end GCAgent

namespace Trajectory

theorem digitChar_isDigit (d : Nat) (h : d < 10) : (digitChar d).isDigit = true := by
  interval_cases d <;> decide

theorem digitChar_toNat (d : Nat) (h : d < 10) : (digitChar d).toNat = 48 + d := by
  interval_cases d <;> decide

theorem natDigitsAux_ne_nil (fuel n : Nat) (h : n < fuel) : natDigitsAux fuel n ≠ [] := by
  cases fuel with
  | zero => omega
  | succ fuel =>
      rw [natDigitsAux]
      by_cases h10 : n < 10 <;> simp [h10]

theorem natDigits_ne_nil (n : Nat) : natDigits n ≠ [] :=
  natDigitsAux_ne_nil (n + 1) n (Nat.lt_succ_self n)

theorem natDigitsAux_isDigit (fuel : Nat) :
    ∀ n, n < fuel → ∀ c ∈ natDigitsAux fuel n, c.isDigit = true := by
  induction fuel with
  | zero => intro n h; omega
  | succ fuel ih =>
      intro n _ c hc
      rw [natDigitsAux] at hc
      by_cases h10 : n < 10
      · rw [if_pos h10] at hc
        rcases List.mem_singleton.mp hc with rfl
        exact digitChar_isDigit n h10
      · rw [if_neg h10] at hc
        rcases List.mem_append.mp hc with hc | hc
        · exact ih (n / 10) (by omega) c hc
        · rcases List.mem_singleton.mp hc with rfl
          exact digitChar_isDigit _ (Nat.mod_lt _ (by omega))

theorem natDigits_isDigit (n : Nat) : ∀ c ∈ natDigits n, c.isDigit = true :=
  natDigitsAux_isDigit (n + 1) n (Nat.lt_succ_self n)

theorem digitsVal_append (xs ys : List Char) (acc : Nat) :
    digitsVal (xs ++ ys) acc = digitsVal ys (digitsVal xs acc) := by
  simp [digitsVal, List.foldl_append]

theorem natDigitsAux_val (fuel : Nat) :
    ∀ n acc, n < fuel →
      digitsVal (natDigitsAux fuel n) acc =
        acc * 10 ^ (natDigitsAux fuel n).length + n := by
  induction fuel with
  | zero => intro n acc h; omega
  | succ fuel ih =>
      intro n acc _
      rw [natDigitsAux]
      by_cases h10 : n < 10
      · rw [if_pos h10]
        simp [digitsVal, digitChar_toNat n h10]
      · rw [if_neg h10]
        rw [digitsVal_append, ih (n / 10) acc (by omega)]
        have hm : (digitChar (n % 10)).toNat = 48 + n % 10 :=
          digitChar_toNat _ (Nat.mod_lt _ (by omega))
        have hone : digitsVal [digitChar (n % 10)]
            (acc * 10 ^ (natDigitsAux fuel (n / 10)).length + n / 10) =
            (acc * 10 ^ (natDigitsAux fuel (n / 10)).length + n / 10) * 10 + n % 10 := by
          simp [digitsVal, hm, Nat.add_sub_cancel_left]
        rw [hone]
        have hlen : (natDigitsAux fuel (n / 10) ++ [digitChar (n % 10)]).length =
            (natDigitsAux fuel (n / 10)).length + 1 := by simp
        rw [hlen, pow_succ]
        have hdm : n / 10 * 10 + n % 10 = n := by omega
        calc (acc * 10 ^ (natDigitsAux fuel (n / 10)).length + n / 10) * 10 + n % 10
            = acc * (10 ^ (natDigitsAux fuel (n / 10)).length * 10) +
                (n / 10 * 10 + n % 10) := by ring
          _ = acc * (10 ^ (natDigitsAux fuel (n / 10)).length * 10) + n := by rw [hdm]

theorem natDigits_val (n : Nat) (acc : Nat) :
    digitsVal (natDigits n) acc = acc * 10 ^ (natDigits n).length + n :=
  natDigitsAux_val (n + 1) n acc (Nat.lt_succ_self n)

theorem parseDigitsAux_spec (ds : List Char) :
    ∀ (rest : List Char) (acc : Nat),
      (∀ c ∈ ds, c.isDigit = true) →
      (∀ c, rest.head? = some c → c.isDigit = false) →
      parseDigitsAux (ds ++ rest) acc = (digitsVal ds acc, rest) := by
  induction ds with
  | nil =>
      intro rest acc _ hrest
      cases rest with
      | nil => rfl
      | cons c cs =>
          have hc := hrest c rfl
          simp [parseDigitsAux, hc, digitsVal]
  | cons d ds ih =>
      intro rest acc hds hrest
      have hd : d.isDigit = true := hds d (List.mem_cons_self d ds)
      simp only [List.cons_append, parseDigitsAux, hd, if_true, List.append_eq]
      rw [ih rest _ (fun c hc => hds c (List.mem_cons_of_mem d hc)) hrest]
      simp [digitsVal]

theorem parseNat_natDigits (n : Nat) (rest : List Char)
    (hrest : ∀ c, rest.head? = some c → c.isDigit = false) :
    parseNat (natDigits n ++ rest) = some (n, rest) := by
  obtain ⟨d, ds, hd⟩ := List.exists_cons_of_ne_nil (natDigits_ne_nil n)
  have hdig := natDigits_isDigit n
  rw [hd] at hdig
  have hd0 : d.isDigit = true := hdig d (List.mem_cons_self _ _)
  have hval : digitsVal (natDigits n) 0 = n := by
    have := natDigits_val n 0
    simpa using this
  rw [hd] at hval
  have hval' : digitsVal ds (d.toNat - 48) = n := by
    simpa [digitsVal] using hval
  rw [hd]
  simp only [List.cons_append, parseNat, hd0, if_true]
  rw [parseDigitsAux_spec ds rest _ (fun c hc => hdig c (List.mem_cons_of_mem d hc)) hrest]
  rw [hval']

theorem parseStringBody_escape (s : List Char) :
    ∀ rest : List Char, parseStringBody (escapeString s ++ '"' :: rest) = some (s, rest) := by
  induction s with
  | nil =>
      intro rest
      rfl
  | cons c cs ih =>
      intro rest
      have ih' := ih rest
      rw [parseStringBody] at ih'
      by_cases hbs : c = '\\'
      · subst hbs
        have he : escapeChar '\\' = ['\\', '\\'] := rfl
        simp only [escapeString, he, List.cons_append, List.append_assoc]
        simp [parseStringBody, parseStringAux, ih']
      · by_cases hq : c = '"'
        · subst hq
          have he : escapeChar '"' = ['\\', '"'] := rfl
          simp only [escapeString, he, List.cons_append, List.append_assoc]
          simp [parseStringBody, parseStringAux, ih']
        · have he : escapeChar c = [c] := by
            simp [escapeChar, hbs, hq]
          simp only [escapeString, he, List.cons_append, List.append_assoc,
            List.singleton_append]
          simp [parseStringBody, parseStringAux, hbs, hq, ih']

/-- A digit character is none of the structural characters of the format. -/
theorem isDigit_ne_special (c : Char) (h : c.isDigit = true) :
    c ≠ 'n' ∧ c ≠ 't' ∧ c ≠ 'f' ∧ c ≠ '"' ∧ c ≠ '[' ∧ c ≠ lbrace ∧ c ≠ '-' ∧
      c ≠ ']' ∧ c ≠ rbrace ∧ c ≠ ',' ∧ c ≠ ':' := by
  refine ⟨?_, ?_, ?_, ?_, ?_, ?_, ?_, ?_, ?_, ?_, ?_⟩ <;>
    · intro hc
      rw [hc] at h
      exact absurd h (by decide)

/-- Every serialized value starts with a character other than `]` and the
closing brace. -/
theorem printJson_head (v : JsonValue) :
    ∃ c cs, printJson v = c :: cs ∧ c ≠ ']' ∧ c ≠ rbrace := by
  cases v with
  | null => exact ⟨'n', ['u', 'l', 'l'], by simp [printJson], by decide, by decide⟩
  | bool b =>
      cases b with
      | false => exact ⟨'f', ['a', 'l', 's', 'e'], by simp [printJson], by decide, by decide⟩
      | true => exact ⟨'t', ['r', 'u', 'e'], by simp [printJson], by decide, by decide⟩
  | num n e =>
      by_cases hneg : n < 0
      · exact ⟨'-', natDigits n.natAbs ++ expSuffix e,
          by simp [printJson, intDigits, hneg], by decide, by decide⟩
      · obtain ⟨d, ds, hd⟩ := List.exists_cons_of_ne_nil (natDigits_ne_nil n.natAbs)
        have hdig : d.isDigit = true :=
          natDigits_isDigit n.natAbs d (hd ▸ List.mem_cons_self d ds)
        obtain ⟨-, -, -, -, -, -, -, h1, h2, -, -⟩ := isDigit_ne_special d hdig
        exact ⟨d, ds ++ expSuffix e, by simp [printJson, intDigits, hneg, hd], h1, h2⟩
  | str s =>
      exact ⟨'"', escapeString s ++ ['"'], by simp [printJson], by decide, by decide⟩
  | arr elems =>
      cases elems with
      | nil => exact ⟨'[', [']'], by simp [printJson], by decide, by decide⟩
      | cons v vs =>
          exact ⟨'[', printJson v ++ printElems vs ++ [']'], by simp [printJson],
            by decide, by decide⟩
  | obj fields =>
      cases fields with
      | nil => exact ⟨lbrace, [rbrace], by simp [printJson], by decide, by decide⟩
      | cons kv kvs =>
          obtain ⟨k, v⟩ := kv
          exact ⟨lbrace,
            '"' :: escapeString k ++ ['"'] ++ ':' :: printJson v ++
              printFields kvs ++ [rbrace],
            by simp [printJson], by decide, by decide⟩

theorem numStopHead_nil : numStopHead [] := by
  intro c hc
  simp at hc

theorem numStopHead_cons (c : Char) (cs : List Char)
    (h : c.isDigit = false ∧ c ≠ 'e') : numStopHead (c :: cs) := by
  intro d hd
  simp only [List.head?_cons, Option.some.injEq] at hd
  exact hd ▸ h

theorem numStopHead_printElems (vs : List JsonValue) (rest : List Char) :
    numStopHead (printElems vs ++ ']' :: rest) := by
  cases vs with
  | nil =>
      simp only [printElems, List.nil_append]
      exact numStopHead_cons _ _ (by decide)
  | cons w ws =>
      simp only [printElems, List.cons_append]
      exact numStopHead_cons _ _ (by decide)

theorem numStopHead_printFields (kvs : List (List Char × JsonValue)) (rest : List Char) :
    numStopHead (printFields kvs ++ rbrace :: rest) := by
  cases kvs with
  | nil =>
      simp only [printFields, List.nil_append]
      exact numStopHead_cons _ _ (by decide)
  | cons kv kvs =>
      obtain ⟨k, v⟩ := kv
      simp only [printFields, List.cons_append]
      exact numStopHead_cons _ _ (by decide)

theorem numStop_digitStop (rest : List Char) (h : numStopHead rest) :
    ∀ c, rest.head? = some c → c.isDigit = false :=
  fun c hc => (h c hc).1

theorem expSuffix_digitStop (e : Int) (rest : List Char) (h : numStopHead rest) :
    ∀ c, (expSuffix e ++ rest).head? = some c → c.isDigit = false := by
  intro c hc
  by_cases he : e = 0
  · rw [expSuffix, if_pos he, List.nil_append] at hc
    exact (h c hc).1
  · rw [expSuffix, if_neg he, List.cons_append, List.head?_cons] at hc
    simp only [Option.some.injEq] at hc
    subst hc
    decide

theorem parseExpOpt_zero (rest : List Char) (h : numStopHead rest) :
    parseExpOpt rest = none := by
  cases rest with
  | nil => rfl
  | cons c cs =>
      have hc := (h c rfl).2
      simp [parseExpOpt, hc]

theorem parseExpOpt_expSuffix (e : Int) (rest : List Char) (he : e ≠ 0)
    (h : numStopHead rest) :
    parseExpOpt (expSuffix e ++ rest) = some (e, rest) := by
  have hp := parseNat_natDigits e.natAbs rest (numStop_digitStop rest h)
  rw [expSuffix, if_neg he, List.cons_append]
  by_cases hneg : e < 0
  · have hi : intDigits e = '-' :: natDigits e.natAbs := by
      simp [intDigits, hneg]
    have hn : (-(e.natAbs : Int)) = e := by omega
    rw [hi, List.cons_append]
    simp [parseExpOpt, hp, hn, abs_of_neg hneg]
  · obtain ⟨d, ds, hd⟩ := List.exists_cons_of_ne_nil (natDigits_ne_nil e.natAbs)
    have hdig : d.isDigit = true :=
      natDigits_isDigit e.natAbs d (hd ▸ List.mem_cons_self d ds)
    obtain ⟨-, -, -, -, -, -, h7, -, -, -, -⟩ := isDigit_ne_special d hdig
    have hi : intDigits e = natDigits e.natAbs := by
      simp [intDigits, hneg]
    have hn : ((e.natAbs : Nat) : Int) = e := by omega
    rw [hd, List.cons_append] at hp
    rw [hi, hd, List.cons_append]
    simp [parseExpOpt, h7, hp, hn, abs_of_nonneg (le_of_not_lt hneg)]

theorem jsize_pos (v : JsonValue) : 1 ≤ jsize v := by
  cases v <;> simp [jsize]

theorem parse_print_aux (fuel : Nat) :
    (∀ v rest, jsize v ≤ fuel → numStopHead rest →
      parseValue fuel (printJson v ++ rest) = some (v, rest)) ∧
    (∀ v vs rest, jsize v + 1 + sizeElems vs ≤ fuel →
      parseElems fuel (printJson v ++ (printElems vs ++ ']' :: rest)) =
        some (v :: vs, rest)) ∧
    (∀ k v kvs rest, jsize v + 1 + sizeFields kvs ≤ fuel →
      parseFields fuel
          ('"' :: (escapeString k ++ '"' :: ':' ::
            (printJson v ++ (printFields kvs ++ rbrace :: rest)))) =
        some ((k, v) :: kvs, rest)) := by
  induction fuel using Nat.strong_induction_on with
  | h fuel ih =>
  cases fuel with
  | zero =>
      refine ⟨?_, ?_, ?_⟩
      · intro v rest hsz _
        have := jsize_pos v
        omega
      · intro v vs rest hsz
        have := jsize_pos v
        omega
      · intro k v kvs rest hsz
        have := jsize_pos v
        omega
  | succ f =>
      have ihf := ih f (Nat.lt_succ_self f)
      refine ⟨?_, ?_, ?_⟩
      · -- parseValue
        intro v rest hsz hrest
        cases v with
        | null => simp [printJson, parseValue]
        | bool b => cases b <;> simp [printJson, parseValue]
        | num n e =>
            have hp := parseNat_natDigits n.natAbs (expSuffix e ++ rest)
              (expSuffix_digitStop e rest hrest)
            by_cases hneg : n < 0
            · have hprint : printJson (JsonValue.num n e) =
                  '-' :: (natDigits n.natAbs ++ expSuffix e) := by
                simp [printJson, intDigits, hneg]
              rw [hprint, List.cons_append, List.append_assoc]
              have hint : (-(n.natAbs : Int)) = n := by omega
              by_cases he : e = 0
              · subst he
                rw [show expSuffix (0 : Int) = [] from rfl, List.nil_append] at hp
                have hz : parseExpOpt rest = none := parseExpOpt_zero rest hrest
                simp [parseValue, lbrace, hp, hz, hint, abs_of_neg hneg, expSuffix]
              · have hs := parseExpOpt_expSuffix e rest he hrest
                simp [parseValue, lbrace, hp, hs, hint, abs_of_neg hneg]
            · have hprint : printJson (JsonValue.num n e) =
                  natDigits n.natAbs ++ expSuffix e := by
                simp [printJson, intDigits, hneg]
              obtain ⟨d, ds, hd⟩ := List.exists_cons_of_ne_nil (natDigits_ne_nil n.natAbs)
              have hdig : d.isDigit = true :=
                natDigits_isDigit n.natAbs d (hd ▸ List.mem_cons_self d ds)
              obtain ⟨h1, h2, h3, h4, h5, h6, h7, -, -, -, -⟩ := isDigit_ne_special d hdig
              have hint : ((n.natAbs : Nat) : Int) = n := by omega
              rw [hd, List.cons_append] at hp
              rw [hprint, List.append_assoc, hd, List.cons_append]
              simp only [parseValue]
              rw [if_neg h1, if_neg h2, if_neg h3, if_neg h4, if_neg h5, if_neg h6,
                if_neg h7, if_pos hdig]
              by_cases he : e = 0
              · subst he
                rw [show expSuffix (0 : Int) = [] from rfl, List.nil_append] at hp
                have hz : parseExpOpt rest = none := parseExpOpt_zero rest hrest
                simp [hp, hz, hint, abs_of_nonneg (le_of_not_lt hneg), expSuffix]
              · have hs := parseExpOpt_expSuffix e rest he hrest
                simp [hp, hs, hint, abs_of_nonneg (le_of_not_lt hneg)]
        | str s =>
            have hprint : printJson (JsonValue.str s) = '"' :: (escapeString s ++ ['"']) := by
              simp [printJson]
            rw [hprint, List.cons_append, List.append_assoc, List.singleton_append]
            simp [parseValue, parseStringBody_escape s rest]
        | arr elems =>
            cases elems with
            | nil => simp [printJson, parseValue]
            | cons v' vs =>
                have hprint : printJson (JsonValue.arr (v' :: vs)) =
                    '[' :: (printJson v' ++ printElems vs ++ [']']) := by
                  simp [printJson]
                have hsz' : jsize v' + 1 + sizeElems vs ≤ f := by
                  simp only [jsize, sizeElems] at hsz
                  omega
                rw [hprint, List.cons_append]
                have harr : (printJson v' ++ printElems vs ++ [']']) ++ rest =
                    printJson v' ++ (printElems vs ++ ']' :: rest) := by
                  simp
                rw [harr]
                obtain ⟨c0, cs0, hc0, hc0r, hc0b⟩ := printJson_head v'
                have hhead : (printJson v' ++ (printElems vs ++ ']' :: rest)).head? =
                    some c0 := by
                  rw [hc0]
                  rfl
                simp [parseValue, lbrace, hhead, hc0r, ihf.2.1 v' vs rest hsz']
        | obj fields =>
            cases fields with
            | nil => simp [printJson, parseValue, lbrace, rbrace]
            | cons kv kvs =>
                obtain ⟨k, v'⟩ := kv
                have hprint : printJson (JsonValue.obj ((k, v') :: kvs)) =
                    lbrace :: ('"' :: escapeString k ++ ['"'] ++ ':' :: printJson v' ++
                      printFields kvs ++ [rbrace]) := by
                  simp [printJson]
                have hsz' : jsize v' + 1 + sizeFields kvs ≤ f := by
                  simp only [jsize, sizeFields] at hsz
                  omega
                rw [hprint, List.cons_append]
                have hre : ('"' :: escapeString k ++ ['"'] ++ ':' :: printJson v' ++
                      printFields kvs ++ [rbrace]) ++ rest =
                    '"' :: (escapeString k ++ '"' :: ':' ::
                      (printJson v' ++ (printFields kvs ++ rbrace :: rest))) := by
                  simp
                rw [hre]
                have hihf := ihf.2.2 k v' kvs rest hsz'
                simp only [rbrace] at hihf
                simp [parseValue, lbrace, rbrace, hihf]
      · -- parseElems
        intro v vs rest hsz
        have hv : jsize v ≤ f := by
          have := jsize_pos v
          omega
        simp only [parseElems]
        rw [ihf.1 v (printElems vs ++ ']' :: rest) hv (numStopHead_printElems vs rest)]
        cases vs with
        | nil => simp [printElems]
        | cons w ws =>
            have hw : jsize w + 1 + sizeElems ws ≤ f := by
              have := jsize_pos v
              simp only [sizeElems] at hsz
              omega
            simp [printElems, ihf.2.1 w ws rest hw]
      · -- parseFields
        intro k v kvs rest hsz
        have hv : jsize v ≤ f := by
          have := jsize_pos v
          omega
        have hval := ihf.1 v (printFields kvs ++ rbrace :: rest) hv
          (numStopHead_printFields kvs rest)
        cases kvs with
        | nil =>
            simp only [printFields, List.nil_append, rbrace] at hval
            simp [parseFields, parseStringBody_escape k, hval, rbrace, printFields]
        | cons kv2 kvs2 =>
            obtain ⟨k2, v2⟩ := kv2
            have hv2 : jsize v2 + 1 + sizeFields kvs2 ≤ f := by
              have := jsize_pos v
              simp only [sizeFields] at hsz
              omega
            have hihf2 := ihf.2.2 k2 v2 kvs2 rest hv2
            simp only [rbrace] at hihf2 hval
            simp only [printFields, List.cons_append, List.append_assoc,
              List.singleton_append, List.nil_append] at hval
            simp [parseFields, parseStringBody_escape k, hval, hihf2, rbrace,
              printFields]

theorem sizes_le_length (N : Nat) :
    (∀ v, jsize v ≤ N → jsize v ≤ (printJson v).length) ∧
    (∀ vs, sizeElems vs ≤ N → sizeElems vs ≤ (printElems vs).length) ∧
    (∀ kvs, sizeFields kvs ≤ N → sizeFields kvs ≤ (printFields kvs).length) := by
  induction N using Nat.strong_induction_on with
  | h N ih =>
  refine ⟨?_, ?_, ?_⟩
  · intro v hv
    cases v with
    | null => simp [jsize, printJson]
    | bool b => cases b <;> simp [jsize, printJson]
    | num n e =>
        have hnd := List.length_pos.mpr (natDigits_ne_nil n.natAbs)
        have h1 : 1 ≤ (printJson (JsonValue.num n e)).length := by
          by_cases hneg : n < 0
          · simp [printJson, intDigits, hneg]
          · simp [printJson, intDigits, hneg]
            omega
        simpa [jsize] using h1
    | str s => simp [jsize, printJson]
    | arr elems =>
        cases elems with
        | nil => simp [jsize, sizeElems, printJson]
        | cons v' vs =>
            have hpos := jsize_pos v'
            have hb : jsize v' + 1 + sizeElems vs + 1 ≤ N := by
              have := hv
              simp only [jsize, sizeElems] at this
              omega
            have i1 := (ih (N - 1) (by omega)).1 v' (by omega)
            have i2 := (ih (N - 1) (by omega)).2.1 vs (by omega)
            simp only [jsize, sizeElems, printJson, List.length_cons,
              List.length_append, List.length_nil]
            omega
    | obj fields =>
        cases fields with
        | nil => simp [jsize, sizeFields, printJson]
        | cons kv kvs =>
            obtain ⟨k, v'⟩ := kv
            have hpos := jsize_pos v'
            have hb : jsize v' + 1 + sizeFields kvs + 1 ≤ N := by
              have := hv
              simp only [jsize, sizeFields] at this
              omega
            have i1 := (ih (N - 1) (by omega)).1 v' (by omega)
            have i3 := (ih (N - 1) (by omega)).2.2 kvs (by omega)
            simp only [jsize, sizeFields, printJson, List.length_cons,
              List.length_append, List.length_nil]
            omega
  · intro vs hvs
    cases vs with
    | nil => simp [sizeElems, printElems]
    | cons v' vs' =>
        have hpos := jsize_pos v'
        have hb : jsize v' + 1 + sizeElems vs' ≤ N := by
          simpa [sizeElems] using hvs
        have i1 := (ih (N - 1) (by omega)).1 v' (by omega)
        have i2 := (ih (N - 1) (by omega)).2.1 vs' (by omega)
        simp only [sizeElems, printElems, List.length_cons, List.length_append]
        omega
  · intro kvs hkvs
    cases kvs with
    | nil => simp [sizeFields, printFields]
    | cons kv kvs' =>
        obtain ⟨k, v'⟩ := kv
        have hpos := jsize_pos v'
        have hb : jsize v' + 1 + sizeFields kvs' ≤ N := by
          simpa [sizeFields] using hkvs
        have i1 := (ih (N - 1) (by omega)).1 v' (by omega)
        have i3 := (ih (N - 1) (by omega)).2.2 kvs' (by omega)
        simp only [sizeFields, printFields, List.length_cons, List.length_append,
          List.length_nil]
        omega

theorem jsize_le_printJson_length (v : JsonValue) : jsize v ≤ (printJson v).length :=
  (sizes_le_length (jsize v)).1 v (Nat.le_refl _)

/-- The round trip through the storage representation is lossless. -/
theorem loads_dumps (v : JsonValue) : loads (dumps v) = some v := by
  have h1 : parseValue ((printJson v).length + 1) (printJson v ++ []) = some (v, []) :=
    (parse_print_aux ((printJson v).length + 1)).1 v []
      (by have := jsize_le_printJson_length v; omega) numStopHead_nil
  rw [List.append_nil] at h1
  simp [loads, dumps, h1]

theorem deserialize_serialize (p : Option JsonValue) :
    (p.map dumps).bind loads = p := by
  cases p with
  | none => rfl
  | some v => simp [loads_dumps]

theorem find?_append_fresh (rows : List TrajectoryRow) (row : TrajectoryRow)
    (h : ∀ r ∈ rows, r.id ≠ row.id) :
    (rows ++ [row]).find? (fun r => r.id == row.id) = some row := by
  induction rows with
  | nil => simp
  | cons r rs ih =>
      have hr : (r.id == row.id) = false := by
        simpa using h r (List.mem_cons_self r rs)
      simp only [List.cons_append, List.find?_cons, hr]
      exact ih (fun x hx => h x (List.mem_cons_of_mem r hx))

theorem get_append (rows : List TrajectoryRow) (row : TrajectoryRow) (n : Nat)
    (hfresh : ∀ r ∈ rows, r.id ≠ row.id) :
    TrajectoryRepository.get ⟨rows ++ [row], n⟩ row.id = some (rowToModel row) := by
  unfold TrajectoryRepository.get
  rw [find?_append_fresh rows row hfresh]

end Trajectory

/-- C1: for every call to the GC agent's `delete_key_snippets` tool with any
list of snippet ids, if the lookup of the most recent human input succeeds
(returning a most recent row with id `c`), then every snippet whose
`human_input_id` equals `c` is refused deletion — it remains in the store
after the call — and the refusal is recorded in the protected-snippets
report, separately from the not-found report (the snippet's id never
appears among the not-found ids). -/
theorem c1_delete_tool_refuses_protected (recent : List Nat) (c : Nat)
    (snippet_ids : List Nat) (store : GCAgent.SnippetStore) (s : GCAgent.KeySnippet)
    (hrecent : recent.head? = some c)
    (hnodup : (store.map GCAgent.KeySnippet.id).Nodup)
    (hmem : s ∈ store)
    (hprot : s.human_input_id = some c) :
    s ∈ (GCAgent.delete_key_snippets (Except.ok recent) snippet_ids store).store ∧
    (s.id ∈ snippet_ids →
      (s.id, s.filepath) ∈
        (GCAgent.delete_key_snippets (Except.ok recent) snippet_ids store).protected_snippets) ∧
    s.id ∉
      (GCAgent.delete_key_snippets (Except.ok recent) snippet_ids store).not_found_snippets := by
  have hcur : GCAgent.currentHumanInputId (Except.ok recent) = some c := by
    simp [GCAgent.currentHumanInputId, hrecent]
  have h := GCAgent.deleteLoop_protects c s hprot snippet_ids
    ⟨store, [], [], [], []⟩ hmem hnodup (by simp)
  unfold GCAgent.delete_key_snippets
  rw [hcur]
  exact ⟨h.1, fun hin => h.2.2.2 hin, h.2.1⟩

theorem c1_delete_tool_refuses_protected_witness :
    demoSnippet ∈
      (GCAgent.delete_key_snippets (Except.ok [5]) [0, 1] [demoSnippet, demoSnippet2]).store ∧
    (demoSnippet.id ∈ [0, 1] →
      (demoSnippet.id, demoSnippet.filepath) ∈
        (GCAgent.delete_key_snippets (Except.ok [5]) [0, 1]
          [demoSnippet, demoSnippet2]).protected_snippets) ∧
    demoSnippet.id ∉
      (GCAgent.delete_key_snippets (Except.ok [5]) [0, 1]
        [demoSnippet, demoSnippet2]).not_found_snippets :=
  c1_delete_tool_refuses_protected [5] 5 [0, 1] [demoSnippet, demoSnippet2] demoSnippet
    rfl (by decide) (by decide) rfl

/-- C2: for every id-keyed store and every sequence of emit and delete
operations starting from the reset state, each emit returns exactly the
store's pre-emit counter value and increments the counter by one, the
counter never decreases across any operation sequence (in particular a
delete never changes it), and no id is ever assigned twice within a run. -/
theorem c2_allocator_monotone_and_unique {α : Type} :
    (∀ (st : KeyedStore α) (v : α),
      (st.emit v).1 = st.counter ∧ (st.emit v).2.counter = st.counter + 1) ∧
    (∀ (st : KeyedStore α) (ids : List Nat), (st.deleteIds ids).counter = st.counter) ∧
    (∀ (st : KeyedStore α) (ops : List (StoreOp α)), st.counter ≤ (st.runOps ops).counter) ∧
    (∀ ops : List (StoreOp α), ((KeyedStore.reset : KeyedStore α).emittedIds ops).Nodup) :=
  ⟨fun _ _ => ⟨rfl, rfl⟩, fun st ids => st.deleteIds_counter ids,
    fun st ops => st.runOps_counter_le ops,
    fun ops => KeyedStore.emittedIds_nodup KeyedStore.reset ops⟩

namespace Trajectory

/-- C3: for every structured (nested mapping/sequence/scalar, including
booleans, null, and decimal numbers `mantissa × 10 ^ exponent`, which cover
integers and floating-point scalars such as `0.5 = 5 × 10 ^ (-1)`)
`tool_parameters`, `tool_result` and `step_data` passed to
`TrajectoryRepository.create`, a subsequent `get` (and
`get_parsed_trajectory`) of the created record returns values exactly equal
to the originals: the serialization through the storage representation and
the deserialization back is a lossless round trip. -/
theorem c3_trajectory_round_trip (tbl : TrajectoryTable) (name : String)
    (p r s : Option JsonValue) (rt : Option String) (hid tk : Option Nat) (ie : Bool)
    (hfresh : ∀ row ∈ tbl.rows, row.id ≠ tbl.next_id) :
    ∀ m tbl2,
      TrajectoryRepository.create tbl name p r s rt hid tk ie = (m, tbl2) →
      TrajectoryRepository.get tbl2 m.id = some m ∧
      TrajectoryRepository.get_parsed_trajectory tbl2 m.id = some m ∧
      m.tool_parameters = p ∧ m.tool_result = r ∧ m.step_data = s ∧
      m.tool_name = name ∧ m.human_input_id = hid := by
  intro m tbl2 hc
  have hm : m =
      rowToModel ⟨tbl.next_id, hid, name, p.map dumps, r.map dumps, s.map dumps,
        rt, tk, ie⟩ :=
    (congrArg Prod.fst hc).symm
  have ht : tbl2 =
      (⟨tbl.rows ++ [⟨tbl.next_id, hid, name, p.map dumps, r.map dumps, s.map dumps,
        rt, tk, ie⟩], tbl.next_id + 1⟩ : TrajectoryTable) :=
    (congrArg Prod.snd hc).symm
  subst hm
  subst ht
  refine ⟨?_, ?_, deserialize_serialize p, deserialize_serialize r,
    deserialize_serialize s, rfl, rfl⟩
  · exact get_append tbl.rows _ _ (fun rr hrr => hfresh rr hrr)
  · exact get_append tbl.rows _ _ (fun rr hrr => hfresh rr hrr)

theorem c3_trajectory_round_trip_witness :
    TrajectoryRepository.get demoCreated.2 demoCreated.1.id = some demoCreated.1 ∧
    TrajectoryRepository.get_parsed_trajectory demoCreated.2 demoCreated.1.id =
      some demoCreated.1 ∧
    demoCreated.1.tool_parameters = demoParams ∧
    demoCreated.1.tool_result = demoResult ∧
    demoCreated.1.step_data = demoStep ∧
    demoCreated.1.tool_name = "ripgrep_search" ∧
    demoCreated.1.human_input_id = some 7 :=
  c3_trajectory_round_trip ⟨[], 0⟩ "ripgrep_search" demoParams demoResult demoStep
    (some "tool_execution") (some 7) (some 100) false (by simp)
    demoCreated.1 demoCreated.2 rfl

end Trajectory

/-- C4: for every run of the key-snippets GC agent in which the store is
non-empty and every snippet's `human_input_id` equals the current
human-input id (so the eligible partition is empty), the run leaves the
store unchanged, never invokes the LLM agent, and reports that all entries
are protected. -/
theorem c4_gc_run_all_protected (recent : List Nat) (c : Nat)
    (agentCalls : List (Except String (List Nat) × List Nat))
    (store : GCAgent.SnippetStore)
    (hne : store ≠ [])
    (hrecent : recent.head? = some c)
    (hall : ∀ s ∈ store, s.human_input_id = some c) :
    GCAgent.run_key_snippets_gc_agent (Except.ok recent) agentCalls store =
      ⟨store, false, GCAgent.GCReport.allProtected store.length⟩ := by
  have hcur : GCAgent.currentHumanInputId (Except.ok recent) = some c := by
    simp [GCAgent.currentHumanInputId, hrecent]
  have hpos : 0 < store.length := List.length_pos.mpr hne
  simp only [GCAgent.run_key_snippets_gc_agent, hcur]
  have hfilter_elig :
      store.filter (fun s => ¬ GCAgent.isProtectedSnippet (some c) s) = [] := by
    refine List.filter_eq_nil_iff.mpr ?_
    intro a ha
    simp [GCAgent.isProtectedSnippet, hall a ha]
  have hfilter_prot :
      store.filter (fun s => GCAgent.isProtectedSnippet (some c) s) = store := by
    refine List.filter_eq_self.mpr ?_
    intro a ha
    simp [GCAgent.isProtectedSnippet, hall a ha]
  simp only [hfilter_elig, hfilter_prot]
  simp [hpos]

theorem c4_gc_run_all_protected_witness :
    GCAgent.run_key_snippets_gc_agent (Except.ok [5]) [(Except.ok [5], [0])] [demoSnippet] =
      ⟨[demoSnippet], false, GCAgent.GCReport.allProtected 1⟩ :=
  c4_gc_run_all_protected [5] 5 [(Except.ok [5], [0])] [demoSnippet]
    (by decide) rfl (by decide)

/-- C5: for the GC agent's delete tool and the GC run, a failure (raised
exception) of the most-recent-human-input lookup is caught: the operation
proceeds exactly as if no protection existed (identical to a lookup that
found no human input), the protected report stays empty, every named
snippet is treated as deletable (a snippet survives the call exactly when
it was present and not named), the GC run proceeds identically, and a
non-empty store still reaches the LLM agent instead of aborting. -/
theorem c5_lookup_failure_degrades (msg : String) (snippet_ids : List Nat)
    (store : GCAgent.SnippetStore)
    (agentCalls : List (Except String (List Nat) × List Nat))
    (s : GCAgent.KeySnippet) :
    GCAgent.delete_key_snippets (Except.error msg) snippet_ids store =
      GCAgent.delete_key_snippets (Except.ok []) snippet_ids store ∧
    (GCAgent.delete_key_snippets (Except.error msg) snippet_ids store).protected_snippets =
      [] ∧
    (s ∈ (GCAgent.delete_key_snippets (Except.error msg) snippet_ids store).store ↔
      (s ∈ store ∧ s.id ∉ snippet_ids)) ∧
    GCAgent.run_key_snippets_gc_agent (Except.error msg) agentCalls store =
      GCAgent.run_key_snippets_gc_agent (Except.ok []) agentCalls store ∧
    (store ≠ [] →
      (GCAgent.run_key_snippets_gc_agent (Except.error msg) agentCalls store).llmInvoked =
        true) := by
  refine ⟨rfl, ?_, ?_, rfl, ?_⟩
  · exact GCAgent.deleteLoop_none_protected snippet_ids ⟨store, [], [], [], []⟩
  · exact GCAgent.deleteLoop_none_mem snippet_ids ⟨store, [], [], [], []⟩ s
  · intro hne
    have hpos : 0 < store.length := List.length_pos.mpr hne
    have hfilter :
        store.filter
          (fun s => ¬ GCAgent.isProtectedSnippet
            (GCAgent.currentHumanInputId (Except.error msg)) s) = store := by
      refine List.filter_eq_self.mpr ?_
      intro a _
      simp [GCAgent.isProtectedSnippet, GCAgent.currentHumanInputId]
    simp only [GCAgent.run_key_snippets_gc_agent, hfilter]
    simp [hpos, hne]

theorem c5_lookup_failure_degrades_witness :
    GCAgent.delete_key_snippets (Except.error "db down") [0] [demoSnippet] =
      GCAgent.delete_key_snippets (Except.ok []) [0] [demoSnippet] ∧
    (GCAgent.delete_key_snippets (Except.error "db down") [0] [demoSnippet]).protected_snippets =
      [] ∧
    (demoSnippet ∈ (GCAgent.delete_key_snippets (Except.error "db down") [0] [demoSnippet]).store ↔
      (demoSnippet ∈ [demoSnippet] ∧ demoSnippet.id ∉ [0])) ∧
    GCAgent.run_key_snippets_gc_agent (Except.error "db down") [] [demoSnippet] =
      GCAgent.run_key_snippets_gc_agent (Except.ok []) [] [demoSnippet] ∧
    (GCAgent.run_key_snippets_gc_agent (Except.error "db down") [] [demoSnippet]).llmInvoked =
      true :=
  have h := c5_lookup_failure_degrades "db down" [0] [demoSnippet] [] demoSnippet
  ⟨h.1, h.2.1, h.2.2.1, h.2.2.2.1, h.2.2.2.2 (by decide)⟩

/-- C6: for every tasks store and every pair of distinct ids `a` and `b`
both present, `swap_task_order a b` returns "Tasks swapped." and exchanges
exactly the two stored descriptions: afterwards `a` maps to the old value
at `b` and `b` to the old value at `a`, every other id's value is
unchanged, and the task id counter is unchanged. -/
theorem c6_swap_task_order_exchanges (m : Memory) (a b : Nat) (va vb : String)
    (hab : a ≠ b)
    (ha : alLookup m.tasks.entries a = some va)
    (hb : alLookup m.tasks.entries b = some vb) :
    (swap_task_order a b m).1 = "Tasks swapped." ∧
    alLookup (swap_task_order a b m).2.tasks.entries a = some vb ∧
    alLookup (swap_task_order a b m).2.tasks.entries b = some va ∧
    (∀ c, c ≠ a → c ≠ b →
      alLookup (swap_task_order a b m).2.tasks.entries c = alLookup m.tasks.entries c) ∧
    (swap_task_order a b m).2.tasks.counter = m.tasks.counter := by
  have hsw : swap_task_order a b m =
      ("Tasks swapped.",
        { m with tasks := ⟨alSet (alSet m.tasks.entries a vb) b va, m.tasks.counter⟩ }) := by
    simp only [swap_task_order, ha, hb, if_neg hab]
  rw [hsw]
  refine ⟨rfl, ?_, ?_, ?_, rfl⟩
  · rw [alLookup_set_other (alSet m.tasks.entries a vb) b a va hab]
    exact alLookup_set_self m.tasks.entries a vb va ha
  · have hba : alLookup (alSet m.tasks.entries a vb) b = some vb := by
      rw [alLookup_set_other m.tasks.entries a b vb (Ne.symm hab)]
      exact hb
    exact alLookup_set_self (alSet m.tasks.entries a vb) b va vb hba
  · intro c hca hcb
    rw [alLookup_set_other (alSet m.tasks.entries a vb) b c va hcb]
    exact alLookup_set_other m.tasks.entries a c vb hca

theorem c6_swap_task_order_exchanges_witness :
    (swap_task_order 0 2 demoMemory).1 = "Tasks swapped." ∧
    alLookup (swap_task_order 0 2 demoMemory).2.tasks.entries 0 = some "Task 3" ∧
    alLookup (swap_task_order 0 2 demoMemory).2.tasks.entries 2 = some "Task 1" ∧
    alLookup (swap_task_order 0 2 demoMemory).2.tasks.entries 1 =
      alLookup demoMemory.tasks.entries 1 ∧
    (swap_task_order 0 2 demoMemory).2.tasks.counter = demoMemory.tasks.counter :=
  have h := c6_swap_task_order_exchanges demoMemory 0 2 "Task 1" "Task 3"
    (by decide) rfl rfl
  ⟨h.1, h.2.1, h.2.2.1, h.2.2.2.1 1 (by decide) (by decide), h.2.2.2.2⟩

/-- C7: for every bulk delete on an id-keyed store (`delete_key_facts`,
`delete_tasks`, `delete_key_snippets`) and every list of ids mixing
present, never-emitted and already-deleted ids, the call removes exactly
the present ids (lookup of a named id afterwards is `none`, every other id
is unchanged), leaves the counter unchanged, leaves the unrelated stores
and the Related-Files set unchanged, and still returns the fixed success
string. -/
theorem c7_bulk_delete_per_id_best_effort (ids : List Nat) (m : Memory) :
    (delete_key_facts ids m).1 = "Facts deleted." ∧
    (delete_tasks ids m).1 = "Tasks deleted." ∧
    (delete_key_snippets ids m).1 = "Snippets deleted." ∧
    (∀ j, alLookup (delete_key_facts ids m).2.key_facts.entries j =
      if j ∈ ids then none else alLookup m.key_facts.entries j) ∧
    (delete_key_facts ids m).2.key_facts.counter = m.key_facts.counter ∧
    (∀ j, alLookup (delete_tasks ids m).2.tasks.entries j =
      if j ∈ ids then none else alLookup m.tasks.entries j) ∧
    (delete_tasks ids m).2.tasks.counter = m.tasks.counter ∧
    (∀ j, alLookup (delete_key_snippets ids m).2.key_snippets.entries j =
      if j ∈ ids then none else alLookup m.key_snippets.entries j) ∧
    (delete_key_snippets ids m).2.key_snippets.counter = m.key_snippets.counter ∧
    (delete_key_facts ids m).2.key_snippets = m.key_snippets ∧
    (delete_key_facts ids m).2.tasks = m.tasks ∧
    (delete_key_facts ids m).2.related_files = m.related_files ∧
    (delete_key_snippets ids m).2.related_files = m.related_files ∧
    (delete_tasks ids m).2.related_files = m.related_files :=
  ⟨rfl, rfl, rfl,
    fun j => m.key_facts.deleteIds_lookup ids j,
    m.key_facts.deleteIds_counter ids,
    fun j => m.tasks.deleteIds_lookup ids j,
    m.tasks.deleteIds_counter ids,
    fun j => m.key_snippets.deleteIds_lookup ids j,
    m.key_snippets.deleteIds_counter ids,
    rfl, rfl, rfl, rfl, rfl⟩

/-- C8: over every sequence of snippet emissions, related-file emissions
and snippet deletions from the reset state, the Related-Files set is a
superset of all filepaths ever emitted; re-emitting a duplicate filepath
(as a file or as a snippet) leaves the set unchanged; deleting a snippet
never removes its filepath from the set. -/
theorem c8_related_files_superset :
    (∀ (ops : List FileOp) (f : String), f ∈ emittedPaths ops →
      f ∈ (runFileOps Memory.reset ops).related_files) ∧
    (∀ (m : Memory) (s : SnippetInfo), s.filepath ∈ m.related_files →
      (emit_key_snippets [s] m).2.related_files = m.related_files) ∧
    (∀ (m : Memory) (f : String), f ∈ m.related_files →
      (emit_related_files [f] m).2.related_files = m.related_files) ∧
    (∀ (m : Memory) (ids : List Nat),
      (delete_key_snippets ids m).2.related_files = m.related_files) := by
  refine ⟨?_, ?_, ?_, ?_⟩
  · intro ops f hf
    exact runFileOps_related_superset ops Memory.reset f (Or.inr hf)
  · intro m s hs
    simp [emit_key_snippets, fileInsert, hs]
  · intro m f hf
    simp [emit_related_files, fileInsert, hf]
  · intro m ids
    rfl

theorem c8_related_files_superset_witness :
    "a.py" ∈ (runFileOps Memory.reset
      [FileOp.emitSnips [demoSnippetInfo], FileOp.delSnips [0]]).related_files ∧
    (emit_key_snippets [demoSnippetInfo] demoMemoryFiles).2.related_files =
      demoMemoryFiles.related_files ∧
    (emit_related_files ["a.py"] demoMemoryFiles).2.related_files =
      demoMemoryFiles.related_files ∧
    (delete_key_snippets [0] demoMemoryFiles).2.related_files =
      demoMemoryFiles.related_files :=
  ⟨c8_related_files_superset.1 [FileOp.emitSnips [demoSnippetInfo], FileOp.delSnips [0]]
      "a.py" (by simp [emittedPaths, demoSnippetInfo]),
    c8_related_files_superset.2.1 demoMemoryFiles demoSnippetInfo (by decide),
    c8_related_files_superset.2.2.1 demoMemoryFiles "a.py" (by decide),
    c8_related_files_superset.2.2.2 demoMemoryFiles [0]⟩

namespace TrajectoryRepo

/-- C9: when no trajectory repository is published (before any scoped
manager is entered, or after it has exited), `get_trajectory_repository`
returns an error whose message contains "No TrajectoryRepository
available" rather than a null handle; inside the scope it returns exactly
the repository instance the manager constructed. -/
theorem c9_repository_lifecycle (db : Nat) (repo : TrajectoryRepository)
    (slot2 : RepoSlot)
    (henter : TrajectoryRepositoryManager.enter db none = Except.ok (repo, slot2)) :
    get_trajectory_repository none =
      Except.error
        "No TrajectoryRepository available. Ensure TrajectoryRepositoryManager is active." ∧
    (∃ pre post,
      ("No TrajectoryRepository available. Ensure TrajectoryRepositoryManager is active." :
          String).data =
        pre ++ ("No TrajectoryRepository available" : String).data ++ post) ∧
    get_trajectory_repository slot2 = Except.ok repo ∧
    (∀ slot : RepoSlot,
      get_trajectory_repository (TrajectoryRepositoryManager.exit slot) =
        Except.error
          "No TrajectoryRepository available. Ensure TrajectoryRepositoryManager is active.") := by
  have hpair : (⟨db⟩ : TrajectoryRepository) = repo ∧
      (some (⟨db⟩ : TrajectoryRepository) : RepoSlot) = slot2 := by
    have h := henter
    simp only [TrajectoryRepositoryManager.enter, Except.ok.injEq, Prod.mk.injEq] at h
    exact h
  obtain ⟨h1, h2⟩ := hpair
  subst h1
  subst h2
  exact ⟨rfl,
    ⟨[], (". Ensure TrajectoryRepositoryManager is active." : String).data, by decide⟩,
    rfl, fun _ => rfl⟩

theorem c9_repository_lifecycle_witness :
    get_trajectory_repository none =
      Except.error
        "No TrajectoryRepository available. Ensure TrajectoryRepositoryManager is active." ∧
    (∃ pre post,
      ("No TrajectoryRepository available. Ensure TrajectoryRepositoryManager is active." :
          String).data =
        pre ++ ("No TrajectoryRepository available" : String).data ++ post) ∧
    get_trajectory_repository (some ⟨1⟩) = Except.ok ⟨1⟩ ∧
    (∀ slot : RepoSlot,
      get_trajectory_repository (TrajectoryRepositoryManager.exit slot) =
        Except.error
          "No TrajectoryRepository available. Ensure TrajectoryRepositoryManager is active.") :=
  c9_repository_lifecycle 1 ⟨1⟩ (some ⟨1⟩) rfl

end TrajectoryRepo

/-- C10: the GC agent's `delete_key_snippets` tool returns the literal
string "Snippets deleted." on every call — for every lookup outcome, every
list of ids and every store, including when nothing was deleted — and the
itemized per-id report it assembles is never part of the returned value. -/
theorem c10_delete_tool_fixed_return (lookup : Except String (List Nat))
    (snippet_ids : List Nat) (store : GCAgent.SnippetStore) :
    (GCAgent.delete_key_snippets lookup snippet_ids store).ret = "Snippets deleted." :=
  rfl

end RAAid

